import Mathlib

/-!
Verification of the core of a PAdES-style electronic-signature emulator.

The development shallowly embeds the repository's Python modules:

* `key_generator/crypto.py`   — RSA key generation, PBKDF2 PIN derivation,
  AES-256-CBC encryption of the private key (`encrypt_private_key`);
* `signature_app/crypto.py`   — PIN derivation, blob decryption
  (`decrypt_private_key`), RSA-PSS sign/verify wrappers;
* `signature_app/pdf_handler.py` — PDF signing (`sign_pdf`) and signature
  verification (`verify_pdf_signature`);
* `signature_app/usb_detector.py` and `key_generator/usb_detector.py` —
  the removable-media polling monitors.

External cryptographic primitives (the AES block cipher, PBKDF2-HMAC-SHA256,
SHA-256, RSA-PSS) are not part of the repository; they are represented by
abstract parameters (`BlockCipher`, a `Kdf` function, a `hash` function,
`RSAScheme`) carrying exactly the algebraic facts the library guarantees.
All mode-of-operation logic, padding, byte layouts, parsing, and control
flow are translated directly from the Python sources.  Sources of
nondeterminism (`os.urandom`, the PSS salt) are made explicit arguments.
-/

/-- Byte strings are lists of naturals; well-formed bytes are `< 256`. -/
abbrev Bytes := List Nat

/-- Every entry of the byte string is a valid byte value. -/
def bytesWF (b : Bytes) : Bool := b.all (· < 256)

/-- UTF-8 encoding of one character (code points are valid scalar values). -/
def utf8Bytes (c : Char) : Bytes :=
  let n := c.toNat
  if n < 0x80 then [n]
  else if n < 0x800 then [0xC0 ||| (n >>> 6), 0x80 ||| (n &&& 0x3F)]
  else if n < 0x10000 then
    [0xE0 ||| (n >>> 12), 0x80 ||| ((n >>> 6) &&& 0x3F), 0x80 ||| (n &&& 0x3F)]
  else
    [0xF0 ||| (n >>> 18), 0x80 ||| ((n >>> 12) &&& 0x3F),
     0x80 ||| ((n >>> 6) &&& 0x3F), 0x80 ||| (n &&& 0x3F)]

/-- `str.encode()` — UTF-8 encoding of a Python string. -/
def strEncode (s : String) : Bytes := (s.data.map utf8Bytes).flatten

/-- Abstract interface of `hashlib.pbkdf2_hmac('sha256', pw, salt, iters, dklen)`:
any function of the password bytes, the salt, the iteration count and the
derived-key length.  Determinism (same inputs, same output) is definitional. -/
abbrev Kdf := Bytes → Bytes → Nat → Nat → Bytes

/-- Abstract interface of the AES-256 block cipher used through
`cryptography.hazmat...Cipher(algorithms.AES(key), modes.CBC(iv))`:
a keyed 16-byte block permutation with its inverse. -/
structure BlockCipher where
  encBlock : Bytes → Bytes → Bytes
  decBlock : Bytes → Bytes → Bytes
  enc_len : ∀ k b, b.length = 16 → (encBlock k b).length = 16
  dec_len : ∀ k b, b.length = 16 → (decBlock k b).length = 16
  dec_enc : ∀ k b, b.length = 16 → decBlock k (encBlock k b) = b

/-- Byte-wise XOR (CBC chaining). -/
def xorBytes (a b : Bytes) : Bytes := List.zipWith (fun x y => x ^^^ y) a b

/-- Split a byte string into 16-byte blocks (last block possibly short);
`fuel` bounds the recursion depth so that the definition is structural and
kernel-evaluable.  With `fuel = l.length` it never runs out (see
`toBlocks_eq`). -/
def toBlocksGo : Nat → Bytes → List Bytes
  | 0, _ => []
  | fuel + 1, l => if l = [] then [] else l.take 16 :: toBlocksGo fuel (l.drop 16)

/-- Split a byte string into 16-byte blocks (last block possibly short). -/
def toBlocks (l : Bytes) : List Bytes := toBlocksGo l.length l

/-- CBC encryption over a list of 16-byte blocks. -/
def cbcEncBlocks (C : BlockCipher) (k : Bytes) : Bytes → List Bytes → List Bytes
  | _, [] => []
  | prev, b :: rest =>
    let c := C.encBlock k (xorBytes b prev)
    c :: cbcEncBlocks C k c rest

/-- CBC decryption over a list of 16-byte blocks. -/
def cbcDecBlocks (C : BlockCipher) (k : Bytes) : Bytes → List Bytes → List Bytes
  | _, [] => []
  | prev, c :: rest => xorBytes (C.decBlock k c) prev :: cbcDecBlocks C k c rest

/-- `encryptor.update(data) + encryptor.finalize()` in CBC mode. -/
def cbcEncrypt (C : BlockCipher) (k iv m : Bytes) : Bytes :=
  (cbcEncBlocks C k iv (toBlocks m)).flatten

/-- `decryptor.update(data) + decryptor.finalize()` in CBC mode. -/
def cbcDecrypt (C : BlockCipher) (k iv c : Bytes) : Bytes :=
  (cbcDecBlocks C k iv (toBlocks c)).flatten

namespace key_generator

/-- `key_generator/crypto.py: derive_key_from_pin(pin, salt=None)`.
`entropy` stands for the `os.urandom(16)` drawn when `salt is None`.
Returns `(key, salt)` as the source does. -/
def derive_key_from_pin (kdf : Kdf) (pin : String) (saltOpt : Option Bytes)
    (entropy : Bytes) : Bytes × Bytes :=
  let salt := match saltOpt with
    | none => entropy
    | some s => s
  (kdf (strEncode pin) salt 100000 32, salt)

/-- `key_generator/crypto.py: encrypt_private_key(private_key_pem, pin)`.
`saltEntropy` and `ivEntropy` are the two `os.urandom(16)` draws. -/
def encrypt_private_key (C : BlockCipher) (kdf : Kdf) (private_key_pem : Bytes)
    (pin : String) (saltEntropy ivEntropy : Bytes) : Bytes :=
  let salt := saltEntropy
  let key := (derive_key_from_pin kdf pin (some salt) []).1
  let iv := ivEntropy
  let padding_length := 16 - (private_key_pem.length % 16)
  let padded_data := private_key_pem ++ List.replicate padding_length padding_length
  let encrypted_key := cbcEncrypt C key iv padded_data
  salt ++ iv ++ encrypted_key

end key_generator

/-- Python slice `l[:-n]`: for `n = 0` this is `l[:0] = []`;
for `n > 0` it is the first `max 0 (l.length - n)` elements. -/
def pySliceDropLast (l : Bytes) (n : Nat) : Bytes :=
  if n = 0 then [] else l.take (l.length - n)

/-- The raw runtime error `decrypt_private_key` can raise:
`padded_data[-1]` on an empty byte string is an `IndexError`. -/
inductive PyError where
  | indexError
deriving DecidableEq, Repr

namespace signature_app

/-- `signature_app/crypto.py: derive_key_from_pin(pin, salt)`. -/
def derive_key_from_pin (kdf : Kdf) (pin : String) (salt : Bytes) : Bytes :=
  kdf (strEncode pin) salt 100000 32

/-- `signature_app/crypto.py: decrypt_private_key(encrypted_data, pin)`.
Parses `salt = data[:16]`, `iv = data[16:32]`, `ct = data[32:]`, derives the
key, CBC-decrypts, then strips `padded_data[-1]` trailing bytes with no
validation.  `padded_data[-1]` on empty data raises `IndexError`. -/
def decrypt_private_key (C : BlockCipher) (kdf : Kdf) (encrypted_data : Bytes)
    (pin : String) : Except PyError Bytes :=
  let salt := encrypted_data.take 16
  let iv := (encrypted_data.drop 16).take 16
  let encrypted_key := encrypted_data.drop 32
  let key := derive_key_from_pin kdf pin salt
  let padded_data := cbcDecrypt C key iv encrypted_key
  match padded_data.getLast? with
  | none => .error .indexError
  | some padding_length => .ok (pySliceDropLast padded_data padding_length)

end signature_app

/-! ## Python string helpers used by `pdf_handler.py` -/

/-- The sixteen lowercase hex digits, as produced by Python's `bytes.hex()`. -/
def hexDigits : List Char := "0123456789abcdef".data

/-- The hex digit of a value `< 16`. -/
def hexDigitChar (n : Nat) : Char := hexDigits.getD n '0'

/-- Python `bytes.hex()`: two lowercase hex digits per byte. -/
def hexEncode : Bytes → List Char
  | [] => []
  | b :: rest => hexDigitChar (b / 16) :: hexDigitChar (b % 16) :: hexEncode rest

/-- Numeric value of a hex digit (upper or lower case), as accepted by
Python's `bytes.fromhex`. -/
def hexVal (c : Char) : Option Nat :=
  if '0' ≤ c ∧ c ≤ '9' then some (c.toNat - 48)
  else if 'a' ≤ c ∧ c ≤ 'f' then some (c.toNat - 87)
  else if 'A' ≤ c ∧ c ≤ 'F' then some (c.toNat - 55)
  else none

/-- Python `bytes.fromhex`: an even number of hex digits, two per byte
(`ValueError`, modelled as `none`, otherwise).  The whitespace tolerance of
`fromhex` is irrelevant here: every string the verifier feeds to it has been
stripped and is whitespace-free. -/
def hexDecode : List Char → Option Bytes
  | [] => some []
  | [_] => none
  | c1 :: c2 :: rest => do
    let h ← hexVal c1
    let l ← hexVal c2
    let t ← hexDecode rest
    pure ((16 * h + l) :: t)

/-- Python `str.isspace` characters relevant to `str.strip()`. -/
def isPySpace (c : Char) : Bool :=
  c = ' ' || c = '\t' || c = '\n' || c = '\r' || c = '\x0b' || c = '\x0c'

/-- Python `str.strip()`: remove leading and trailing whitespace. -/
def pyStrip (s : List Char) : List Char :=
  ((s.dropWhile isPySpace).reverse.dropWhile isPySpace).reverse

/-- The marker `pdf_handler.py` uses to tag the signature in the
`/Author` metadata: `"SIGNATURE:"`. -/
def sigMarker : List Char := "SIGNATURE:".data

/-- Python `str.split(sep)` for `sep = "SIGNATURE:"`: pieces between
occurrences of the marker, scanned left to right without overlap; `fuel`
bounds the recursion depth so that the definition is structural and
kernel-evaluable.  With `fuel = s.length` it never runs out (see
`splitAuxSig_nil` and `splitAuxSig_cons`). -/
def splitAuxSigGo : Nat → List Char → List Char → List (List Char)
  | 0, _, acc => [acc.reverse]
  | fuel + 1, s, acc =>
    match s with
    | [] => [acc.reverse]
    | c :: rest =>
      if sigMarker.isPrefixOf (c :: rest) then
        acc.reverse :: splitAuxSigGo fuel ((c :: rest).drop sigMarker.length) []
      else
        splitAuxSigGo fuel rest (c :: acc)

/-- Python `str.split('SIGNATURE:')`, accumulator form. -/
def splitAuxSig (s acc : List Char) : List (List Char) :=
  splitAuxSigGo s.length s acc

/-- Python `s.split('SIGNATURE:')`. -/
def splitOnSigMarker (s : List Char) : List (List Char) := splitAuxSig s []

/-- `if 'SIGNATURE:' in s: s.split('SIGNATURE:')[1].strip()` — the
signature-extraction idiom of `verify_pdf_signature`. -/
def extractAfterSigMarker (s : List Char) : Option (List Char) :=
  match splitOnSigMarker s with
  | _ :: piece1 :: _ => some (pyStrip piece1)
  | _ => none

/-- Python substring test `needle in hay`. -/
def containsSub (needle : List Char) : List Char → Bool
  | [] => needle.isEmpty
  | s@(_ :: rest) => needle.isPrefixOf s || containsSub needle rest

/-- Python `hay.find(needle)`: index of the first occurrence, `none` for `-1`. -/
def findSubIdx (needle : List Char) : List Char → Option Nat
  | [] => if needle.isEmpty then some 0 else none
  | s@(_ :: rest) =>
    if needle.isPrefixOf s then some 0
    else (findSubIdx needle rest).map (· + 1)

/-- Python `str.split('\n')`. -/
def splitLinesAux : List Char → List Char → List (List Char)
  | [], acc => [acc.reverse]
  | c :: rest, acc =>
    if c = '\n' then acc.reverse :: splitLinesAux rest []
    else splitLinesAux rest (c :: acc)

/-- Python `str.split('\n')`. -/
def splitLines (s : List Char) : List (List Char) := splitLinesAux s []

/-- Python truthiness of the `signature_hex` variable: `None` and the empty
string are falsy. -/
def isTruthy : Option (List Char) → Bool
  | some (_ :: _) => true
  | _ => false

/-! ## RSA-PSS and the PDF signing protocol (`signature_app/pdf_handler.py`,
`signature_app/crypto.py`) -/

/-- Abstract interface of 4096-bit RSA-PSS-SHA256 through the `cryptography`
library.  Keys are PEM byte strings, as in the source.  `entropy` is the
random PSS salt drawn inside `private_key.sign`.  `keypair priv pub` holds
when the two PEM strings come from one call of
`key_generator/crypto.py: generate_rsa_keypair()`; for such pairs the
library guarantees that verification accepts every signature, that
signatures are 512 bytes (4096-bit modulus), and that signature bytes are
bytes.  `verify` is total: the source's `verify_signature` converts both
load failures and `InvalidSignature` into `False`. -/
structure RSAScheme where
  sign : Bytes → Bytes → Bytes → Bytes
  verify : Bytes → Bytes → Bytes → Bool
  keypair : Bytes → Bytes → Prop
  verify_sign : ∀ priv pub data entropy, keypair priv pub →
    verify pub data (sign priv data entropy) = true
  sign_len : ∀ priv data entropy, (sign priv data entropy).length = 512
  sign_wf : ∀ priv data entropy, bytesWF (sign priv data entropy) = true

/-- `signature_app/crypto.py: sign_data(data, private_key_pem)` — RSA-PSS
over the already-hashed data.  (The PEM-load failure path re-raises and is
reached by no claim; the abstract `sign` is total.) -/
def sign_data (R : RSAScheme) (data : Bytes) (private_key_pem : Bytes)
    (entropy : Bytes) : Bytes :=
  R.sign private_key_pem data entropy

/-- `signature_app/crypto.py: verify_signature(data, signature, public_key_pem)`
— returns `False` on a load failure or a failed cryptographic check,
`True` on success; never raises. -/
def verify_signature (R : RSAScheme) (data signature public_key_pem : Bytes) :
    Bool :=
  R.verify public_key_pem data signature

/-- One parsed PDF page: the result of `PyPDF2`'s `extract_text()` and the
string-valued entries of its `/Resources` dictionary that the verifier
inspects. -/
structure PDFPage where
  extractText : String
  resources : List (String × String)
deriving DecidableEq, Repr

/-- A parsed PDF as `PdfReader` presents it (and as `PdfWriter` builds it):
pages plus the document-information metadata dictionary.  Writing the
artifact to disk and re-reading it is modelled as the identity on this view. -/
structure PDF where
  pages : List PDFPage
  metadata : List (String × String)
deriving DecidableEq, Repr

/-- Dictionary lookup `d[k]` / `k in d` on a metadata dictionary. -/
def lookupMeta (m : List (String × String)) (k : String) : Option String :=
  (m.find? (fun kv => kv.1 == k)).map (fun kv => kv.2)

/-- The byte sequence `sign_pdf` hashes (`pdf_handler.py` lines 39-44) and
`verify_pdf_signature` re-hashes (lines 243-255): the UTF-8 encoding of the
extracted text of each page, concatenated in page order. -/
def signDigestInput (pages : List PDFPage) : Bytes :=
  (pages.map (fun p => strEncode p.extractText)).flatten

/-- Modelled from the spec: §4.2's `canonicalBytes(document)` is "the literal
byte content of the document before any signature-related mutation — never a
re-rendering or text-extraction of it".  The spec-side document is the raw
file bytes together with the parsed page view the implementation actually
uses. -/
structure SourceDocument where
  rawBytes : Bytes
  parsedPages : List PDFPage
deriving DecidableEq, Repr

/-- Modelled from the spec: `canonicalBytes` of §4.2 — the literal bytes. -/
def canonicalBytes (doc : SourceDocument) : Bytes := doc.rawBytes

/-- The text `create_signature_page` draws, top to bottom, as one extracted
string: title, notices, truncated signature hash, and the hex visualization
lines (64 hex chars per line, at most 256 chars in total). -/
def sigPageLines (hashFn : Bytes → Bytes) (signature : Bytes) : List String :=
  let signature_hex := hexEncode signature
  let visLines := (toVisLines signature_hex).map (fun l => String.mk l)
  ["Digital Signature",
   "This document has been digitally signed.",
   "Signature Algorithm: RSA-SHA256",
   "Signature Hash: " ++ String.mk ((hexEncode (hashFn signature)).take 16),
   "Signature Value (Visualization):"] ++ visLines
where
  /-- 64-character lines of the first 256 hex characters. -/
  toVisLines (hex : List Char) : List (List Char) :=
    let cut := hex.take 256
    (List.range ((cut.length + 63) / 64)).map (fun i => (cut.drop (64 * i)).take 64)

/-- `pdf_handler.py: create_signature_page(signature)`.  The reportlab
canvas stores the `setAuthor` value in the mini-document's information
dictionary, not in the page object, so after `add_page` the page carries no
`/Author` resource; its extracted text is the drawn strings. -/
def create_signature_page (hashFn : Bytes → Bytes) (signature : Bytes) :
    PDFPage :=
  { extractText := String.intercalate "\n" (sigPageLines hashFn signature),
    resources := [] }

/-- `pdf_handler.py: sign_pdf(input_path, output_path, private_key_pem)`.
`hashFn` is SHA-256; `entropy` the PSS salt; `inputBasename` the
`os.path.basename(input_path)` stored under `/SignatureDate`.  Copies all
pages, hashes the concatenated extracted page text, signs the digest,
appends the signature page, and writes the metadata record (the `PdfWriter`
starts with empty metadata). -/
def sign_pdf (R : RSAScheme) (hashFn : Bytes → Bytes) (doc : PDF)
    (private_key_pem : Bytes) (entropy : Bytes) (inputBasename : String) :
    PDF :=
  let pdf_hash := hashFn (signDigestInput doc.pages)
  let signature := sign_data R pdf_hash private_key_pem entropy
  let signature_page := create_signature_page hashFn signature
  { pages := doc.pages ++ [signature_page],
    metadata :=
      [("/PAdES-Signature", "True"),
       ("/SignatureDate", inputBasename),
       ("/SignatureType", "RSA-SHA256"),
       ("/Author", String.mk (sigMarker ++ hexEncode signature))] }

/-- The `ValueError`s `verify_pdf_signature` can raise, one constructor per
`raise` site. -/
inductive VerifyError where
  /-- "This PDF does not contain a PAdES signature" -/
  | noPAdESSignature
  /-- "Invalid signed PDF format" -/
  | invalidFormat
  /-- "Signature value not found in the document" -/
  | signatureValueNotFound
  /-- "Could not extract signature from the document" -/
  | couldNotExtract
  /-- "Failed to verify signature: ..." — re-raise wrapper around an
  exception inside the final `try` block (only `bytes.fromhex` can throw
  there). -/
  | failedToVerify
deriving DecidableEq, Repr

/-- `"Signature Value"`, the text marker of the fallback extraction. -/
def sigValueMarker : List Char := "Signature Value".data

/-- The text-scraping loop of `verify_pdf_signature` (lines 209-224):
walk the lines, start capturing after a line containing
`"Signature Value"`, append stripped all-alphanumeric lines, stop at the
first non-alphanumeric non-empty line. -/
def captureSigText : List (List Char) → Bool → List Char → List Char
  | [], _, signature_hex => signature_hex
  | line :: rest, capturing, signature_hex =>
    if containsSub sigValueMarker line then
      captureSigText rest true signature_hex
    else if capturing && !(pyStrip line).isEmpty
        && (pyStrip line).all Char.isAlphanum then
      captureSigText rest capturing (signature_hex ++ pyStrip line)
    else if capturing && !(pyStrip line).isEmpty
        && !((pyStrip line).all Char.isAlphanum) then
      signature_hex
    else
      captureSigText rest capturing signature_hex

/-- Extraction step 1 of `verify_pdf_signature` (lines 164-173): the
`/Author` entry of the last page's `/Resources`, if it carries the marker. -/
def sigHexStep1 (pdf : PDF) : Option (List Char) :=
  match pdf.pages.getLast? with
  | none => none
  | some lastPage =>
    match lookupMeta lastPage.resources "/Author" with
    | none => none
    | some author_info => extractAfterSigMarker author_info.data

/-- Extraction step 2 (lines 175-189): the document `/Author` metadata,
tried only when the step-1 value is falsy (`if not signature_hex`). -/
def sigHexStep2 (pdf : PDF) (prev : Option (List Char)) :
    Option (List Char) :=
  if isTruthy prev then prev
  else
    match lookupMeta pdf.metadata "/Author" with
    | none => prev
    | some author =>
      match extractAfterSigMarker author.data with
      | none => prev
      | some h => some h

/-- The last page's extracted text (`pdf_reader.pages[-1].extract_text()`),
empty for a page-less document. -/
def lastPageText (pdf : PDF) : String :=
  match pdf.pages.getLast? with
  | some lastPage => lastPage.extractText
  | none => ""

/-- Extraction step 3 (lines 191-224): scrape the last page's text, tried
only when the step-2 value is falsy; raises when the `"Signature Value"`
heading is missing. -/
def sigHexStep3 (pdf : PDF) (prev : Option (List Char)) :
    Except VerifyError (Option (List Char)) :=
  if isTruthy prev then .ok prev
  else
    let text := (lastPageText pdf).data
    match findSubIdx sigValueMarker text with
    | none => .error .signatureValueNotFound
    | some signature_start =>
      .ok (some (captureSigText
        (splitLines (text.drop signature_start)) false []))

/-- The tail of `verify_pdf_signature` (lines 226-279): fail when no truthy
signature hex was extracted, decode it (a `bytes.fromhex` error is wrapped
and re-raised), re-hash every page but the last, and run the cryptographic
check. -/
def verifyDecodedSig (R : RSAScheme) (hashFn : Bytes → Bytes) (pdf : PDF)
    (signature_hex : Option (List Char)) (public_key_pem : Bytes) :
    Except VerifyError Bool :=
  match signature_hex with
  | some (c :: cs) =>
    match hexDecode (c :: cs) with
    | none => .error .failedToVerify
    | some signature =>
      let pdf_hash := hashFn (signDigestInput pdf.pages.dropLast)
      .ok (verify_signature R pdf_hash signature public_key_pem)
  | _ => .error .couldNotExtract

/-- `pdf_handler.py: verify_pdf_signature(pdf_path, public_key_pem)`.
Checks the `/PAdES-Signature` marker and the page count; then looks for the
signature hex in (1) the last page's `/Resources` `/Author`, (2) the
document `/Author` metadata, (3) the scraped text of the last page; decodes
it; re-hashes the extracted text of all pages but the last; and calls
`verify_signature`.  Tampering and key mismatch yield `.ok false`, never an
error.  (The inner public-key load `try` only prints and is behaviourally
inert.) -/
def verify_pdf_signature (R : RSAScheme) (hashFn : Bytes → Bytes) (pdf : PDF)
    (public_key_pem : Bytes) : Except VerifyError Bool :=
  match lookupMeta pdf.metadata "/PAdES-Signature" with
  | none => .error .noPAdESSignature
  | some _ =>
    if pdf.pages.length < 2 then .error .invalidFormat
    else
      match sigHexStep3 pdf (sigHexStep2 pdf (sigHexStep1 pdf)) with
      | .error e => .error e
      | .ok signature_hex =>
        verifyDecodedSig R hashFn pdf signature_hex public_key_pem

/-! ## Removable-media monitors (`usb_detector.py`, both applications) -/

/-- Events the signature application's `USBDetector` emits:
`usb_connected(drive, key_bytes)`, `usb_disconnected()` (no payload), and
textual status updates. -/
inductive SigEvent where
  | usbConnected (path : String) (keyData : Bytes)
  | usbDisconnected
  | statusUpdate (msg : String)
deriving DecidableEq, Repr

namespace signature_app

/-- `signature_app/usb_detector.py: USBDetector.check_drive_for_key`.
`fs` models the volume contents: the bytes of `path`, if that file exists.
A connect event is emitted only when `<drive>/private_key.enc` exists.
(The read-error branch only emits a status update; reads are modelled as
total.) -/
def check_drive_for_key (fs : String → Option Bytes) (drive_path : String) :
    List SigEvent :=
  match fs (drive_path ++ "/private_key.enc") with
  | some encrypted_key_data =>
    [.statusUpdate ("Private key found on " ++ drive_path),
     .usbConnected drive_path encrypted_key_data]
  | none => []

/-- One iteration of the `while self.running` loop of
`signature_app/usb_detector.py: USBDetector.run`: diff the current
enumeration against the snapshot, emit per-drive events, replace the
snapshot. -/
def USBDetector.stepCycle (fs : String → Option Bytes)
    (connected_drives current_drives : List String) :
    List SigEvent × List String :=
  let newEvents :=
    (current_drives.filter (fun d => !connected_drives.contains d)).flatMap
      (fun d => .statusUpdate ("New drive detected: " ++ d)
        :: check_drive_for_key fs d)
  let removedEvents :=
    (connected_drives.filter (fun d => !current_drives.contains d)).flatMap
      (fun d => [.statusUpdate ("Drive removed: " ++ d), .usbDisconnected])
  (newEvents ++ removedEvents, current_drives)

/-- The loop of `USBDetector.run` over a sequence of enumeration snapshots
(one `get_removable_drives()` result per poll cycle), starting from the
`connected_drives` snapshot.  The pre-loop pass over the initial snapshot
(lines 32-33) is not part of the cycle loop. -/
def USBDetector.runCycles (fs : String → Option Bytes) :
    List String → List (List String) → List SigEvent
  | _, [] => []
  | snapshot, current :: rest =>
    let (events, newSnapshot) := USBDetector.stepCycle fs snapshot current
    events ++ USBDetector.runCycles fs newSnapshot rest

end signature_app

/-- Events the key generator's `USBDetector` emits: `usb_connected(drive)`
(path only — no blob), `usb_disconnected()`, and status updates. -/
inductive KgEvent where
  | usbConnected (path : String)
  | usbDisconnected
  | statusUpdate (msg : String)
deriving DecidableEq, Repr

namespace key_generator

/-- One iteration of the `while self.running` loop of
`key_generator/usb_detector.py: USBDetector.run`: every newly present drive
yields a connect event (no key-blob check), every newly absent drive a
disconnect event. -/
def USBDetector.stepCycle (connected_drives current_drives : List String) :
    List KgEvent × List String :=
  let newEvents :=
    (current_drives.filter (fun d => !connected_drives.contains d)).flatMap
      (fun d => [.statusUpdate ("New drive detected: " ++ d), .usbConnected d])
  let removedEvents :=
    (connected_drives.filter (fun d => !current_drives.contains d)).flatMap
      (fun d => [.statusUpdate ("Drive removed: " ++ d), .usbDisconnected])
  (newEvents ++ removedEvents, current_drives)

/-- The loop of the key generator's `USBDetector.run` over a sequence of
enumeration snapshots. -/
def USBDetector.runCycles :
    List String → List (List String) → List KgEvent
  | _, [] => []
  | snapshot, current :: rest =>
    let (events, newSnapshot) := USBDetector.stepCycle snapshot current
    events ++ USBDetector.runCycles newSnapshot rest

end key_generator

/-- Connect/disconnect events of the signature application's monitor
(status updates are progress reporting, not connectivity events). -/
def isConnEvent : SigEvent → Bool
  | .statusUpdate _ => false
  | _ => true

/-- Connect/disconnect events of the key generator's monitor. -/
def isKgConnEvent : KgEvent → Bool
  | .statusUpdate _ => false
  | _ => true

/-- The PIN policy the calling boundary enforces
(`key_generator/gui.py` lines 108 and 160): at least six characters, all
digits. -/
def validPinFormat (pin : String) : Bool :=
  pin.length ≥ 6 && pin.data.all Char.isDigit

deriving instance DecidableEq for Except

/-! ## Concrete instances and inputs used by witnesses and counterexamples.
The cipher, KDF, hash and RSA instances below are admissible inhabitants of
the abstract primitive interfaces; the claims' theorems quantify over all
instances, and these serve only to evaluate them on concrete inputs. -/

/-- Pad or truncate a byte string to exactly 16 bytes. -/
def keyPad16 (k : Bytes) : Bytes := (k ++ List.replicate 16 0).take 16

/-- A key-dependent involutive block cipher: XOR with the padded key. -/
def xorCipher : BlockCipher where
  encBlock := fun k b => xorBytes b (keyPad16 k)
  decBlock := fun k b => xorBytes b (keyPad16 k)
  enc_len := by
    intro k b hb
    simp [xorBytes, keyPad16, hb]
  dec_len := by
    intro k b hb
    simp [xorBytes, keyPad16, hb]
  dec_enc := by
    intro k b hb
    have hk : (keyPad16 k).length = 16 := by simp [keyPad16]
    have main : ∀ (a c : Bytes), a.length = c.length →
        List.zipWith (fun x y => x ^^^ y)
          (List.zipWith (fun x y => x ^^^ y) a c) c = a := by
      intro a
      induction a with
      | nil => intro c _; simp
      | cons x xs ih =>
        intro c hlc
        cases c with
        | nil => simp at hlc
        | cons y ys =>
          simp only [List.zipWith_cons_cons, Nat.xor_cancel_right,
            List.cons.injEq, true_and]
          exact ih ys (by simpa using hlc)
    exact main b (keyPad16 k) (by rw [hb, hk])

/-- A trivial PBKDF2 stand-in: the derived key is the password bytes. -/
def toyKdf : Kdf := fun pw _salt _iterations _dklen => pw

/-- A constant stand-in for SHA-256. -/
def toyHash : Bytes → Bytes := fun _ => [0]

/-- An RSA instance in which every pair is matched and every check passes. -/
def toyRSA : RSAScheme where
  sign := fun _ _ _ => List.replicate 512 0
  verify := fun _ _ _ => true
  keypair := fun _ _ => True
  verify_sign := fun _ _ _ _ _ => rfl
  sign_len := fun _ _ _ => List.length_replicate 512 0
  sign_wf := fun _ _ _ => by
    simp only [bytesWF, List.all_eq_true]
    intro x hx
    rw [List.eq_of_mem_replicate hx]
    decide

/-- An RSA instance in which no pair is matched and every check fails. -/
def mismatchRSA : RSAScheme where
  sign := fun _ _ _ => List.replicate 512 0
  verify := fun _ _ _ => false
  keypair := fun _ _ => False
  verify_sign := fun _ _ _ _ h => absurd h id
  sign_len := fun _ _ _ => List.length_replicate 512 0
  sign_wf := fun _ _ _ => by
    simp only [bytesWF, List.all_eq_true]
    intro x hx
    rw [List.eq_of_mem_replicate hx]
    decide

/-- A one-page document for the round-trip witness. -/
def toyDoc : PDF :=
  { pages := [{ extractText := "Hello world", resources := [] }],
    metadata := [] }

/-- A document whose literal file bytes (a PDF header and body) differ from
its extracted page text. -/
def c2Doc : SourceDocument :=
  { rawBytes := strEncode "%PDF-1.4 raw object stream bytes",
    parsedPages := [{ extractText := "Hello world", resources := [] }] }

/-- An artifact declaring a signature algorithm no verifier implements,
otherwise carrying a decodable embedded signature. -/
def c4Artifact : PDF :=
  { pages := [{ extractText := "page one", resources := [] },
              { extractText := "signature page", resources := [] }],
    metadata := [("/PAdES-Signature", "True"),
                 ("/SignatureType", "NOT-A-REAL-ALGORITHM"),
                 ("/Author", "SIGNATURE:00")] }

/-- An artifact with no `/PAdES-Signature` metadata at all. -/
def c4NoMeta : PDF := { pages := [], metadata := [] }

/-- A marked artifact with fewer than two pages. -/
def c4Short : PDF :=
  { pages := [{ extractText := "only page", resources := [] }],
    metadata := [("/PAdES-Signature", "True")] }

/-- A marked artifact in which no signature can be located anywhere:
no `/Author` entries, and the last page's text has no "Signature Value". -/
def c4NoSig : PDF :=
  { pages := [{ extractText := "page one", resources := [] },
              { extractText := "nothing embedded here", resources := [] }],
    metadata := [("/PAdES-Signature", "True")] }

/-- A 32-byte-header blob whose single ciphertext block decrypts (under
`xorCipher`/`toyKdf` and PIN "123456") to sixteen zero bytes, so the
recovered padding length is 0. -/
def c10Blob : Bytes := List.replicate 32 0 ++ keyPad16 (strEncode "123456")

/-! ## Supporting lemmas: CBC mode and PKCS#7-style padding -/

theorem toBlocksGo_congr (f1 : Nat) :
    ∀ (f2 : Nat) (l : Bytes), l.length ≤ f1 → l.length ≤ f2 →
      toBlocksGo f1 l = toBlocksGo f2 l := by
  induction f1 with
  | zero =>
    intro f2 l h1 _
    have hl : l = [] := List.eq_nil_of_length_eq_zero (by omega)
    subst hl
    cases f2 <;> rfl
  | succ f ih =>
    intro f2 l h1 h2
    cases f2 with
    | zero =>
      have hl : l = [] := List.eq_nil_of_length_eq_zero (by omega)
      subst hl
      rfl
    | succ g =>
      show (if l = [] then [] else l.take 16 :: toBlocksGo f (l.drop 16))
        = (if l = [] then [] else l.take 16 :: toBlocksGo g (l.drop 16))
      by_cases hne : l = []
      · rw [if_pos hne, if_pos hne]
      · have hl : l.length ≠ 0 :=
          fun h0 => hne (List.eq_nil_of_length_eq_zero h0)
        rw [if_neg hne, if_neg hne]
        congr 1
        exact ih g (l.drop 16) (by rw [List.length_drop]; omega)
          (by rw [List.length_drop]; omega)

theorem toBlocks_eq (l : Bytes) :
    toBlocks l = if l = [] then [] else l.take 16 :: toBlocks (l.drop 16) := by
  cases l with
  | nil => rfl
  | cons c rest =>
    have hne : (c :: rest) ≠ [] := by simp
    show (if (c :: rest) = [] then []
        else (c :: rest).take 16 :: toBlocksGo rest.length ((c :: rest).drop 16))
      = _
    rw [if_neg hne, if_neg hne]
    congr 1
    exact toBlocksGo_congr rest.length ((c :: rest).drop 16).length _
      (by rw [List.length_drop, List.length_cons]; omega) (le_refl _)

theorem toBlocks_nil : toBlocks [] = [] := rfl

theorem flatten_toBlocks (l : Bytes) : (toBlocks l).flatten = l := by
  rw [toBlocks_eq]
  split
  · simp [*]
  · rw [List.flatten_cons, flatten_toBlocks (l.drop 16)]
    exact List.take_append_drop 16 l
termination_by l.length
decreasing_by
  simp only [List.length_drop]
  rename_i h
  have : l.length ≠ 0 := fun hl => h (List.eq_nil_of_length_eq_zero hl)
  omega

theorem toBlocks_mem_length (l : Bytes) :
    l.length % 16 = 0 → ∀ b ∈ toBlocks l, b.length = 16 := by
  intro h b hb
  rw [toBlocks_eq] at hb
  by_cases hne : l = []
  · rw [if_pos hne] at hb
    simp at hb
  · rw [if_neg hne] at hb
    have hlen : l.length ≠ 0 := fun hl => hne (List.eq_nil_of_length_eq_zero hl)
    rcases List.mem_cons.mp hb with rfl | hb'
    · rw [List.length_take]
      omega
    · exact toBlocks_mem_length (l.drop 16)
        (by rw [List.length_drop]; omega) b hb'
termination_by l.length
decreasing_by
  rw [List.length_drop]
  omega

theorem toBlocks_flatten (bs : List Bytes) (h : ∀ b ∈ bs, b.length = 16) :
    toBlocks bs.flatten = bs := by
  induction bs with
  | nil => simp [toBlocks_nil]
  | cons b rest ih =>
    have hb : b.length = 16 := h b (by simp)
    rw [List.flatten_cons, toBlocks_eq]
    have hne : b ++ rest.flatten ≠ [] := by
      intro hcontr
      have := congrArg List.length hcontr
      simp [hb] at this
    rw [if_neg hne, List.take_left' hb, List.drop_left' hb,
      ih (fun x hx => h x (List.mem_cons.mpr (Or.inr hx)))]

theorem toBlocks_ne_nil (l : Bytes) (h : l ≠ []) : toBlocks l ≠ [] := by
  rw [toBlocks_eq, if_neg h]
  simp

theorem xorBytes_length (a b : Bytes) :
    (xorBytes a b).length = min a.length b.length := by
  simp [xorBytes]

theorem xorBytes_cancel (a b : Bytes) :
    xorBytes (xorBytes a b) b = a ∨ a.length ≠ b.length := by
  by_cases h : a.length = b.length
  · left
    induction a generalizing b with
    | nil => simp [xorBytes]
    | cons x xs ih =>
      cases b with
      | nil => simp at h
      | cons y ys =>
        simp only [xorBytes, List.zipWith_cons_cons] at *
        rw [Nat.xor_cancel_right]
        have := ih ys (by simpa using h)
        simp only [xorBytes] at this
        rw [this]
  · right; exact h

theorem xorBytes_cancel_of_length (a b : Bytes) (h : a.length = b.length) :
    xorBytes (xorBytes a b) b = a := by
  rcases xorBytes_cancel a b with hc | hl
  · exact hc
  · exact absurd h hl

theorem cbcEncBlocks_mem_length (C : BlockCipher) (k prev : Bytes)
    (bs : List Bytes) (hprev : prev.length = 16)
    (hbs : ∀ b ∈ bs, b.length = 16) :
    ∀ c ∈ cbcEncBlocks C k prev bs, c.length = 16 := by
  induction bs generalizing prev with
  | nil => simp [cbcEncBlocks]
  | cons b rest ih =>
    have hb : b.length = 16 := hbs b (by simp)
    have hx : (xorBytes b prev).length = 16 := by
      rw [xorBytes_length, hb, hprev]; simp
    intro c hc
    simp only [cbcEncBlocks] at hc
    rcases List.mem_cons.mp hc with rfl | hc'
    · exact C.enc_len k _ hx
    · exact ih (C.encBlock k (xorBytes b prev)) (C.enc_len k _ hx)
        (fun x hx' => hbs x (List.mem_cons.mpr (Or.inr hx'))) c hc'

theorem cbcEncBlocks_length (C : BlockCipher) (k prev : Bytes)
    (bs : List Bytes) : (cbcEncBlocks C k prev bs).length = bs.length := by
  induction bs generalizing prev with
  | nil => simp [cbcEncBlocks]
  | cons b rest ih => simp [cbcEncBlocks, ih]

theorem cbcDecBlocks_mem_length (C : BlockCipher) (k prev : Bytes)
    (bs : List Bytes) (hprev : prev.length = 16)
    (hbs : ∀ b ∈ bs, b.length = 16) :
    ∀ p ∈ cbcDecBlocks C k prev bs, p.length = 16 := by
  induction bs generalizing prev with
  | nil => simp [cbcDecBlocks]
  | cons b rest ih =>
    have hb : b.length = 16 := hbs b (by simp)
    intro p hp
    simp only [cbcDecBlocks] at hp
    rcases List.mem_cons.mp hp with rfl | hp'
    · rw [xorBytes_length, C.dec_len k b hb, hprev]; simp
    · exact ih b hb (fun x hx' => hbs x (List.mem_cons.mpr (Or.inr hx'))) p hp'

theorem cbcDecBlocks_length (C : BlockCipher) (k prev : Bytes)
    (bs : List Bytes) : (cbcDecBlocks C k prev bs).length = bs.length := by
  induction bs generalizing prev with
  | nil => simp [cbcDecBlocks]
  | cons b rest ih => simp [cbcDecBlocks, ih]

theorem cbcDecBlocks_cbcEncBlocks (C : BlockCipher) (k prev : Bytes)
    (bs : List Bytes) (hprev : prev.length = 16)
    (hbs : ∀ b ∈ bs, b.length = 16) :
    cbcDecBlocks C k prev (cbcEncBlocks C k prev bs) = bs := by
  induction bs generalizing prev with
  | nil => simp [cbcEncBlocks, cbcDecBlocks]
  | cons b rest ih =>
    have hb : b.length = 16 := hbs b (by simp)
    have hx : (xorBytes b prev).length = 16 := by
      rw [xorBytes_length, hb, hprev]; simp
    simp only [cbcEncBlocks, cbcDecBlocks]
    rw [C.dec_enc k _ hx,
      xorBytes_cancel_of_length b prev (by rw [hb, hprev]),
      ih (C.encBlock k (xorBytes b prev)) (C.enc_len k _ hx)
        (fun x hx' => hbs x (List.mem_cons.mpr (Or.inr hx')))]

theorem cbcDecrypt_cbcEncrypt (C : BlockCipher) (k iv m : Bytes)
    (hiv : iv.length = 16) (hm : m.length % 16 = 0) :
    cbcDecrypt C k iv (cbcEncrypt C k iv m) = m := by
  unfold cbcDecrypt cbcEncrypt
  rw [toBlocks_flatten _ (cbcEncBlocks_mem_length C k iv _ hiv
      (toBlocks_mem_length m hm)),
    cbcDecBlocks_cbcEncBlocks C k iv _ hiv (toBlocks_mem_length m hm),
    flatten_toBlocks]

theorem flatten_length_16 (bs : List Bytes) (h : ∀ b ∈ bs, b.length = 16) :
    bs.flatten.length = 16 * bs.length := by
  induction bs with
  | nil => simp
  | cons b rest ih =>
    have hb : b.length = 16 := h b (by simp)
    simp only [List.flatten_cons, List.length_append, List.length_cons, hb,
      ih (fun x hx => h x (List.mem_cons.mpr (Or.inr hx)))]
    ring

theorem cbcEncrypt_length (C : BlockCipher) (k iv m : Bytes)
    (hiv : iv.length = 16) (hm : m.length % 16 = 0) :
    (cbcEncrypt C k iv m).length = m.length := by
  unfold cbcEncrypt
  rw [flatten_length_16 _ (cbcEncBlocks_mem_length C k iv _ hiv
      (toBlocks_mem_length m hm)), cbcEncBlocks_length]
  have := flatten_length_16 (toBlocks m) (toBlocks_mem_length m hm)
  rw [flatten_toBlocks] at this
  omega

/-! ## The encrypted key blob: layout and round trips -/

/-- The ciphertext part of the blob produced by `encrypt_private_key`. -/
def blobCiphertext (C : BlockCipher) (kdf : Kdf) (private_key_pem : Bytes)
    (pin : String) (salt iv : Bytes) : Bytes :=
  let key := kdf (strEncode pin) salt 100000 32
  let padding_length := 16 - (private_key_pem.length % 16)
  cbcEncrypt C key iv
    (private_key_pem ++ List.replicate padding_length padding_length)

theorem encrypt_eq_parts (C : BlockCipher) (kdf : Kdf) (K : Bytes)
    (pin : String) (salt iv : Bytes) :
    key_generator.encrypt_private_key C kdf K pin salt iv =
      salt ++ iv ++ blobCiphertext C kdf K pin salt iv := rfl

theorem padded_length_mod (K : Bytes) :
    (K ++ List.replicate (16 - K.length % 16) (16 - K.length % 16)).length
      % 16 = 0 := by
  rw [List.length_append, List.length_replicate]
  omega

theorem blobCiphertext_length (C : BlockCipher) (kdf : Kdf) (K : Bytes)
    (pin : String) (salt iv : Bytes) (hiv : iv.length = 16) :
    (blobCiphertext C kdf K pin salt iv).length
      = K.length + (16 - K.length % 16) := by
  unfold blobCiphertext
  rw [cbcEncrypt_length _ _ _ _ hiv (padded_length_mod K),
    List.length_append, List.length_replicate]

theorem blob_slices (C : BlockCipher) (kdf : Kdf) (K : Bytes) (pin : String)
    (salt iv : Bytes) (hs : salt.length = 16) (hiv : iv.length = 16) :
    (key_generator.encrypt_private_key C kdf K pin salt iv).take 16 = salt
    ∧ ((key_generator.encrypt_private_key C kdf K pin salt iv).drop 16).take 16
        = iv
    ∧ (key_generator.encrypt_private_key C kdf K pin salt iv).drop 32
        = blobCiphertext C kdf K pin salt iv := by
  rw [encrypt_eq_parts, List.append_assoc]
  refine ⟨?_, ?_, ?_⟩
  · exact List.take_left' hs
  · rw [List.drop_left' hs, List.take_left' hiv]
  · rw [show (32 : Nat) = 16 + 16 from rfl, ← List.drop_drop,
      List.drop_left' hs, List.drop_left' hiv]

/-- Decrypting a freshly encrypted blob with the same PIN recovers exactly
the plaintext key bytes: CBC is inverted and the unpadded suffix is
removed. -/
theorem decrypt_encrypt_eq (C : BlockCipher) (kdf : Kdf) (K : Bytes)
    (pin : String) (salt iv : Bytes) (hs : salt.length = 16)
    (hiv : iv.length = 16) :
    signature_app.decrypt_private_key C kdf
      (key_generator.encrypt_private_key C kdf K pin salt iv) pin
      = .ok K := by
  obtain ⟨h1, h2, h3⟩ := blob_slices C kdf K pin salt iv hs hiv
  simp only [signature_app.decrypt_private_key,
    signature_app.derive_key_from_pin]
  rw [h1, h2, h3]
  simp only [blobCiphertext]
  rw [cbcDecrypt_cbcEncrypt _ _ _ _ hiv (padded_length_mod K)]
  set p := 16 - K.length % 16 with hp
  have hp1 : 1 ≤ p ∧ p ≤ 16 := by constructor <;> omega
  have hlast : (K ++ List.replicate p p).getLast? = some p := by
    rw [List.getLast?_append, List.getLast?_replicate, if_neg (by omega)]
    rfl
  rw [hlast]
  simp only
  congr 1
  unfold pySliceDropLast
  rw [if_neg (by omega), List.length_append, List.length_replicate,
    show K.length + p - p = K.length from by omega, List.take_left]

/-- Decryption of a well-formed blob never signals an error, whatever PIN is
supplied: the unpadding step runs on a nonempty buffer and returns bytes. -/
theorem decrypt_any_pin_isOk (C : BlockCipher) (kdf : Kdf) (K : Bytes)
    (pin1 pin2 : String) (salt iv : Bytes) (hs : salt.length = 16)
    (hiv : iv.length = 16) :
    (signature_app.decrypt_private_key C kdf
      (key_generator.encrypt_private_key C kdf K pin1 salt iv) pin2).isOk
      = true := by
  obtain ⟨h1, h2, h3⟩ := blob_slices C kdf K pin1 salt iv hs hiv
  simp only [signature_app.decrypt_private_key]
  rw [h1, h2, h3]
  have hctlen : ∀ b ∈ toBlocks (blobCiphertext C kdf K pin1 salt iv),
      b.length = 16 := by
    apply toBlocks_mem_length
    rw [blobCiphertext_length C kdf K pin1 salt iv hiv]
    omega
  have hne : blobCiphertext C kdf K pin1 salt iv ≠ [] := by
    intro hcontr
    have := congrArg List.length hcontr
    rw [blobCiphertext_length C kdf K pin1 salt iv hiv] at this
    simp at this
    omega
  have hpadlen : (cbcDecrypt C
      (signature_app.derive_key_from_pin kdf pin2 salt) iv
      (blobCiphertext C kdf K pin1 salt iv)).length
      = 16 * (toBlocks (blobCiphertext C kdf K pin1 salt iv)).length := by
    unfold cbcDecrypt
    rw [flatten_length_16 _ (cbcDecBlocks_mem_length C _ iv _ hiv hctlen),
      cbcDecBlocks_length]
  have hblocksne : toBlocks (blobCiphertext C kdf K pin1 salt iv) ≠ [] :=
    toBlocks_ne_nil _ hne
  have hpos : 0 < (cbcDecrypt C
      (signature_app.derive_key_from_pin kdf pin2 salt) iv
      (blobCiphertext C kdf K pin1 salt iv)).length := by
    rw [hpadlen]
    have : (toBlocks (blobCiphertext C kdf K pin1 salt iv)).length ≠ 0 :=
      fun h0 => hblocksne (List.eq_nil_of_length_eq_zero h0)
    omega
  match hm : (cbcDecrypt C
      (signature_app.derive_key_from_pin kdf pin2 salt) iv
      (blobCiphertext C kdf K pin1 salt iv)).getLast? with
  | some v => simp [hm, Except.isOk, Except.toBool]
  | none =>
    rw [List.getLast?_eq_none_iff] at hm
    rw [hm] at hpos
    simp at hpos

/-! ## Supporting lemmas: hex encoding and the `SIGNATURE:` marker -/

theorem hexVal_hexDigitChar : ∀ n < 16, hexVal (hexDigitChar n) = some n := by
  decide

theorem hexDecode_hexEncode (b : Bytes) (h : bytesWF b = true) :
    hexDecode (hexEncode b) = some b := by
  induction b with
  | nil => rfl
  | cons x rest ih =>
    have hx : x < 256 ∧ bytesWF rest = true := by
      simpa [bytesWF] using h
    simp only [hexEncode, hexDecode,
      hexVal_hexDigitChar (x / 16) (by omega),
      hexVal_hexDigitChar (x % 16) (by omega), ih hx.2,
      Option.bind_some, Option.pure_def]
    have : 16 * (x / 16) + x % 16 = x := by omega
    simp [this]

theorem hexEncode_mem_hex (b : Bytes) (h : bytesWF b = true) :
    ∀ c ∈ hexEncode b, (hexVal c).isSome = true := by
  induction b with
  | nil => simp [hexEncode]
  | cons x rest ih =>
    have hx : x < 256 ∧ bytesWF rest = true := by
      simpa [bytesWF] using h
    intro c hc
    simp only [hexEncode, List.mem_cons] at hc
    rcases hc with rfl | rfl | hc'
    · rw [hexVal_hexDigitChar (x / 16) (by omega)]; rfl
    · rw [hexVal_hexDigitChar (x % 16) (by omega)]; rfl
    · exact ih hx.2 c hc'

theorem hexVal_isSome_not_space (c : Char) (h : (hexVal c).isSome = true) :
    isPySpace c = false := by
  by_contra hcon
  rw [Bool.not_eq_false] at hcon
  simp only [isPySpace, Bool.or_eq_true, decide_eq_true_eq] at hcon
  rcases hcon with ((((rfl | rfl) | rfl) | rfl) | rfl) | rfl <;>
    exact absurd h (by decide)

theorem dropWhile_eq_self_of_all_false (p : Char → Bool) (s : List Char)
    (h : ∀ c ∈ s, p c = false) : s.dropWhile p = s := by
  cases s with
  | nil => rfl
  | cons c rest => rw [List.dropWhile_cons, h c (by simp)]; simp

theorem pyStrip_of_hex (s : List Char)
    (h : ∀ c ∈ s, (hexVal c).isSome = true) : pyStrip s = s := by
  unfold pyStrip
  rw [dropWhile_eq_self_of_all_false _ s
      (fun c hc => hexVal_isSome_not_space c (h c hc)),
    dropWhile_eq_self_of_all_false _ s.reverse
      (fun c hc => hexVal_isSome_not_space c (h c (List.mem_reverse.mp hc))),
    List.reverse_reverse]

theorem sigMarker_cons : sigMarker = 'S' :: "IGNATURE:".data := by decide

theorem marker_not_prefix_of_hex (c : Char) (s : List Char)
    (h : (hexVal c).isSome = true) :
    sigMarker.isPrefixOf (c :: s) = false := by
  have hne : ('S' == c) = false := by
    rw [beq_eq_false_iff_ne]
    intro he
    rw [← he] at h
    exact absurd h (by decide)
  rw [sigMarker_cons]
  simp [List.isPrefixOf, hne]

theorem splitAuxSigGo_succ (f : Nat) (c : Char) (rest acc : List Char) :
    splitAuxSigGo (f + 1) (c :: rest) acc
      = if sigMarker.isPrefixOf (c :: rest) then
          acc.reverse :: splitAuxSigGo f ((c :: rest).drop sigMarker.length) []
        else splitAuxSigGo f rest (c :: acc) := rfl

theorem splitAuxSigGo_congr (f1 : Nat) :
    ∀ (f2 : Nat) (s acc : List Char), s.length ≤ f1 → s.length ≤ f2 →
      splitAuxSigGo f1 s acc = splitAuxSigGo f2 s acc := by
  induction f1 with
  | zero =>
    intro f2 s acc h1 _
    have hs : s = [] := List.eq_nil_of_length_eq_zero (by omega)
    subst hs
    cases f2 <;> rfl
  | succ f ih =>
    intro f2 s acc h1 h2
    cases f2 with
    | zero =>
      have hs : s = [] := List.eq_nil_of_length_eq_zero (by omega)
      subst hs
      rfl
    | succ g =>
      cases s with
      | nil => rfl
      | cons c rest =>
        simp only [List.length_cons] at h1 h2
        have h10 : sigMarker.length = 10 := by decide
        rw [splitAuxSigGo_succ, splitAuxSigGo_succ]
        by_cases hp : sigMarker.isPrefixOf (c :: rest) = true
        · rw [if_pos hp, if_pos hp]
          congr 1
          exact ih g _ []
            (by rw [List.length_drop, h10, List.length_cons]; omega)
            (by rw [List.length_drop, h10, List.length_cons]; omega)
        · rw [if_neg hp, if_neg hp]
          exact ih g rest (c :: acc) (by omega) (by omega)

theorem splitAuxSig_nil (acc : List Char) : splitAuxSig [] acc = [acc.reverse] :=
  rfl

theorem splitAuxSig_cons (c : Char) (rest acc : List Char) :
    splitAuxSig (c :: rest) acc
      = if sigMarker.isPrefixOf (c :: rest) then
          acc.reverse :: splitAuxSig ((c :: rest).drop sigMarker.length) []
        else splitAuxSig rest (c :: acc) := by
  show splitAuxSigGo (rest.length + 1) (c :: rest) acc = _
  rw [splitAuxSigGo_succ]
  have h10 : sigMarker.length = 10 := by decide
  by_cases hp : sigMarker.isPrefixOf (c :: rest) = true
  · rw [if_pos hp, if_pos hp]
    congr 1
    exact splitAuxSigGo_congr rest.length _ _ []
      (by rw [List.length_drop, h10, List.length_cons]; omega) (le_refl _)
  · rw [if_neg hp, if_neg hp]
    rfl

theorem splitAuxSig_all_hex (s : List Char) (acc : List Char)
    (h : ∀ c ∈ s, (hexVal c).isSome = true) :
    splitAuxSig s acc = [acc.reverse ++ s] := by
  induction s generalizing acc with
  | nil => simp [splitAuxSig_nil]
  | cons c rest ih =>
    rw [splitAuxSig_cons, marker_not_prefix_of_hex c rest (h c (by simp))]
    simp only [Bool.false_eq_true, if_false]
    rw [ih (c :: acc) (fun x hx => h x (by simp [hx]))]
    simp

theorem isPrefixOf_append (l t : List Char) : l.isPrefixOf (l ++ t) = true := by
  induction l with
  | nil => cases t <;> rfl
  | cons a as ih => simp [List.isPrefixOf, ih]

theorem splitOnSigMarker_marker_append (t : List Char)
    (h : ∀ c ∈ t, (hexVal c).isSome = true) :
    splitOnSigMarker (sigMarker ++ t) = [[], t] := by
  unfold splitOnSigMarker
  have hcons : sigMarker ++ t = 'S' :: ("IGNATURE:".data ++ t) := by
    rw [sigMarker_cons]; rfl
  rw [hcons, splitAuxSig_cons, ← hcons, isPrefixOf_append]
  simp only [if_true]
  rw [show (sigMarker ++ t).drop sigMarker.length = t from List.drop_left _ _,
    splitAuxSig_all_hex t [] h]
  rfl

theorem extractAfterSigMarker_marker_append (t : List Char)
    (h : ∀ c ∈ t, (hexVal c).isSome = true) :
    extractAfterSigMarker (sigMarker ++ t) = some t := by
  unfold extractAfterSigMarker
  rw [splitOnSigMarker_marker_append t h]
  simp [pyStrip_of_hex t h]

/-! ## Supporting lemmas: verification of a freshly signed artifact -/

theorem hexEncode_cons_shape (x : Nat) (rest : Bytes) :
    hexEncode (x :: rest)
      = hexDigitChar (x / 16) :: hexDigitChar (x % 16) :: hexEncode rest := rfl

/-- Running the verifier on the artifact `sign_pdf` just produced reduces to
the bare cryptographic check: the `/PAdES-Signature` marker is found, the
signature hex is extracted from the document `/Author` metadata (the page
`/Resources` path yields nothing), decoded back to the signature bytes, and
checked against the digest of all pages except the appended signature page —
which is the digest of the original pages. -/
theorem verify_of_sign_pdf (R : RSAScheme) (hashFn : Bytes → Bytes)
    (doc : PDF) (priv ent : Bytes) (nm : String) (pub : Bytes)
    (hpages : doc.pages ≠ []) :
    verify_pdf_signature R hashFn (sign_pdf R hashFn doc priv ent nm) pub
      = .ok (R.verify pub (hashFn (signDigestInput doc.pages))
          (R.sign priv (hashFn (signDigestInput doc.pages)) ent)) := by
  set digest := hashFn (signDigestInput doc.pages) with hdig
  set sig := R.sign priv digest ent with hsig
  have hwf : bytesWF sig = true := R.sign_wf priv digest ent
  have hlen : sig.length = 512 := R.sign_len priv digest ent
  obtain ⟨x, xrest, hx⟩ : ∃ x xrest, sig = x :: xrest := by
    cases hsg : sig with
    | nil => rw [hsg] at hlen; simp at hlen
    | cons x xrest => exact ⟨x, xrest, rfl⟩
  have hmd : (sign_pdf R hashFn doc priv ent nm).metadata
      = [("/PAdES-Signature", "True"), ("/SignatureDate", nm),
         ("/SignatureType", "RSA-SHA256"),
         ("/Author", String.mk (sigMarker ++ hexEncode sig))] := by
    simp [sign_pdf, sign_data, ← hsig, ← hdig]
  have hpg : (sign_pdf R hashFn doc priv ent nm).pages
      = doc.pages ++ [create_signature_page hashFn sig] := by
    simp [sign_pdf, sign_data, ← hsig, ← hdig]
  have hlp : 0 < doc.pages.length := List.length_pos.mpr hpages
  have h5 : extractAfterSigMarker
      (String.mk (sigMarker ++ hexEncode sig)).data = some (hexEncode sig) := by
    rw [show (String.mk (sigMarker ++ hexEncode sig)).data
        = sigMarker ++ hexEncode sig from rfl]
    exact extractAfterSigMarker_marker_append _ (hexEncode_mem_hex sig hwf)
  have hs1 : sigHexStep1 (sign_pdf R hashFn doc priv ent nm) = none := by
    unfold sigHexStep1
    rw [hpg, List.getLast?_concat]
    rfl
  have hs2 : sigHexStep2 (sign_pdf R hashFn doc priv ent nm) none
      = some (hexEncode sig) := by
    unfold sigHexStep2
    rw [if_neg (by simp [isTruthy]), hmd]
    rw [show lookupMeta
        [("/PAdES-Signature", "True"), ("/SignatureDate", nm),
         ("/SignatureType", "RSA-SHA256"),
         ("/Author", String.mk (sigMarker ++ hexEncode sig))] "/Author"
      = some (String.mk (sigMarker ++ hexEncode sig)) from rfl]
    simp only [h5]
  have hs3 : sigHexStep3 (sign_pdf R hashFn doc priv ent nm)
      (some (hexEncode sig)) = .ok (some (hexEncode sig)) := by
    unfold sigHexStep3
    rw [hx, hexEncode_cons_shape]
    simp [isTruthy]
  have hdec : verifyDecodedSig R hashFn (sign_pdf R hashFn doc priv ent nm)
      (some (hexEncode sig)) pub = .ok (R.verify pub digest sig) := by
    unfold verifyDecodedSig
    rw [hx, hexEncode_cons_shape]
    simp only
    rw [← hexEncode_cons_shape, ← hx, hexDecode_hexEncode sig hwf]
    simp only
    rw [hpg, List.dropLast_concat]
    rfl
  unfold verify_pdf_signature
  rw [hmd]
  rw [show lookupMeta
      [("/PAdES-Signature", "True"), ("/SignatureDate", nm),
       ("/SignatureType", "RSA-SHA256"),
       ("/Author", String.mk (sigMarker ++ hexEncode sig))] "/PAdES-Signature"
    = some "True" from rfl]
  simp only
  rw [hpg]
  simp only [List.length_append, List.length_cons, List.length_nil]
  rw [if_neg (by omega)]
  rw [hs1, hs2, hs3]
  simp only
  exact hdec

/-! ## Claim theorems -/

/-- C1: For every PDF document (a PDF has at least one page) and every
matched RSA-4096 key pair produced by key generation, signing the document
into an artifact and then verifying that artifact against the matching
public key returns true. -/
theorem sign_then_verify_roundtrip (R : RSAScheme) (hashFn : Bytes → Bytes)
    (doc : PDF) (priv pub ent : Bytes) (nm : String)
    (hkp : R.keypair priv pub) (hpages : doc.pages ≠ []) :
    verify_pdf_signature R hashFn (sign_pdf R hashFn doc priv ent nm) pub
      = .ok true := by
  rw [verify_of_sign_pdf R hashFn doc priv ent nm pub hpages,
    R.verify_sign priv pub _ ent hkp]

/-- C1 witness: the round trip evaluated at a concrete one-page document. -/
theorem sign_then_verify_roundtrip_witness :
    verify_pdf_signature toyRSA toyHash
      (sign_pdf toyRSA toyHash toyDoc [1] [] "doc.pdf") [2] = .ok true :=
  sign_then_verify_roundtrip toyRSA toyHash toyDoc [1] [2] [] "doc.pdf"
    trivial (by decide)

/-- C2 counterexample: at the concrete document `c2Doc`, the byte sequence
`sign_pdf` hashes — the concatenated UTF-8 `extract_text()` output of the
pages — differs from the literal file bytes prescribed by the spec's
`canonicalBytes`. -/
theorem digest_input_not_literal_bytes :
    signDigestInput c2Doc.parsedPages ≠ canonicalBytes c2Doc := by decide

/-- C2 (amended): the digest `sign_pdf` computes and signs is the hash of
the concatenated UTF-8-encoded extracted text of the pages — a text
extraction, not the literal byte content; the artifact's `/Author` metadata
embeds exactly the signature over that digest. -/
theorem signed_digest_is_extracted_text_hash (R : RSAScheme)
    (hashFn : Bytes → Bytes) (doc : PDF) (priv ent : Bytes) (nm : String) :
    lookupMeta (sign_pdf R hashFn doc priv ent nm).metadata "/Author"
      = some (String.mk (sigMarker ++ hexEncode
          (R.sign priv (hashFn (signDigestInput doc.pages)) ent))) := rfl

/-- C3 counterexample: decrypting a blob encrypted under PIN "123456" with
the wrong PIN "654321" signals no failure of any kind — it returns garbage
bytes distinct from the true key. -/
theorem wrong_pin_returns_garbage :
    (signature_app.decrypt_private_key xorCipher toyKdf
        (key_generator.encrypt_private_key xorCipher toyKdf [1, 2, 3, 4, 5]
          "123456" (List.replicate 16 0) (List.replicate 16 0))
        "654321").isOk = true
    ∧ signature_app.decrypt_private_key xorCipher toyKdf
        (key_generator.encrypt_private_key xorCipher toyKdf [1, 2, 3, 4, 5]
          "123456" (List.replicate 16 0) (List.replicate 16 0))
        "654321" ≠ .ok [1, 2, 3, 4, 5] := by
  constructor <;> decide

/-- C3 (amended): `decrypt_private_key` performs no validation whatsoever of
the decrypted material: for every well-formed blob produced by
`encrypt_private_key` and every PIN — matching or not — it returns
successfully (the unauthenticated unpadded bytes), raising no typed
`DecryptionFailure`. -/
theorem decrypt_wrong_pin_no_typed_failure (C : BlockCipher) (kdf : Kdf)
    (K : Bytes) (pin1 pin2 : String) (salt iv : Bytes)
    (hs : salt.length = 16) (hiv : iv.length = 16) :
    (signature_app.decrypt_private_key C kdf
      (key_generator.encrypt_private_key C kdf K pin1 salt iv) pin2).isOk
      = true :=
  decrypt_any_pin_isOk C kdf K pin1 pin2 salt iv hs hiv

/-- C3 witness: wrong-PIN decryption succeeding on concrete inputs. -/
theorem decrypt_wrong_pin_no_typed_failure_witness :
    (signature_app.decrypt_private_key xorCipher toyKdf
      (key_generator.encrypt_private_key xorCipher toyKdf [9] "111111"
        (List.replicate 16 0) (List.replicate 16 1)) "222222").isOk = true :=
  decrypt_wrong_pin_no_typed_failure xorCipher toyKdf [9] "111111" "222222"
    (List.replicate 16 0) (List.replicate 16 1) (by decide) (by decide)

/-- C4 counterexample: `c4Artifact` declares the signature algorithm
"NOT-A-REAL-ALGORITHM", which no verifier implements, yet verification
completes normally — the verifier never inspects the algorithm identifier
and raises no UnsupportedAlgorithm error. -/
theorem unsupported_algorithm_not_raised :
    verify_pdf_signature toyRSA toyHash c4Artifact [] = .ok true := by decide

/-- C4 (amended): the verifier raises (`ValueError`) when the
`/PAdES-Signature` marker is missing, when a marked artifact has fewer than
two pages, and when no signature can be located anywhere; a failed
cryptographic check — tampering or key mismatch — returns false, not an
error.  No algorithm-identifier check exists. -/
theorem verify_error_handling :
    (∀ (R : RSAScheme) (hashFn : Bytes → Bytes) (pdf : PDF) (pub : Bytes),
      lookupMeta pdf.metadata "/PAdES-Signature" = none →
      verify_pdf_signature R hashFn pdf pub = .error .noPAdESSignature)
    ∧ (∀ (R : RSAScheme) (hashFn : Bytes → Bytes) (pdf : PDF) (pub : Bytes)
        (v : String),
      lookupMeta pdf.metadata "/PAdES-Signature" = some v →
      pdf.pages.length < 2 →
      verify_pdf_signature R hashFn pdf pub = .error .invalidFormat)
    ∧ (∀ (R : RSAScheme) (hashFn : Bytes → Bytes) (doc : PDF)
        (priv ent : Bytes) (nm : String) (pub : Bytes),
      doc.pages ≠ [] →
      R.verify pub (hashFn (signDigestInput doc.pages))
        (R.sign priv (hashFn (signDigestInput doc.pages)) ent) = false →
      verify_pdf_signature R hashFn (sign_pdf R hashFn doc priv ent nm) pub
        = .ok false)
    ∧ (∀ (R : RSAScheme) (hashFn : Bytes → Bytes) (pdf : PDF) (pub : Bytes)
        (v : String),
      lookupMeta pdf.metadata "/PAdES-Signature" = some v →
      ¬ pdf.pages.length < 2 →
      isTruthy (sigHexStep2 pdf (sigHexStep1 pdf)) = false →
      findSubIdx sigValueMarker (lastPageText pdf).data = none →
      verify_pdf_signature R hashFn pdf pub
        = .error .signatureValueNotFound) := by
  refine ⟨?_, ?_, ?_, ?_⟩
  · intro R hashFn pdf pub h
    unfold verify_pdf_signature
    rw [h]
  · intro R hashFn pdf pub v hsome hlt
    unfold verify_pdf_signature
    rw [hsome]
    simp only
    rw [if_pos hlt]
  · intro R hashFn doc priv ent nm pub hpages hfail
    rw [verify_of_sign_pdf R hashFn doc priv ent nm pub hpages, hfail]
  · intro R hashFn pdf pub v hsome hge hfalsy hfind
    have h3 : sigHexStep3 pdf (sigHexStep2 pdf (sigHexStep1 pdf))
        = .error .signatureValueNotFound := by
      unfold sigHexStep3
      rw [hfalsy]
      rw [if_neg (by simp)]
      simp only
      rw [hfind]
    unfold verify_pdf_signature
    rw [hsome]
    simp only
    rw [if_neg hge, h3]

/-- C4 witness: each error-handling branch evaluated on concrete inputs. -/
theorem verify_error_handling_witness :
    verify_pdf_signature toyRSA toyHash c4NoMeta [] = .error .noPAdESSignature
    ∧ verify_pdf_signature toyRSA toyHash c4Short [] = .error .invalidFormat
    ∧ verify_pdf_signature mismatchRSA toyHash
        (sign_pdf mismatchRSA toyHash toyDoc [1] [] "doc.pdf") [2] = .ok false
    ∧ verify_pdf_signature toyRSA toyHash c4NoSig []
        = .error .signatureValueNotFound :=
  ⟨verify_error_handling.1 toyRSA toyHash c4NoMeta [] (by decide),
   verify_error_handling.2.1 toyRSA toyHash c4Short [] "True" (by decide)
     (by decide),
   verify_error_handling.2.2.1 mismatchRSA toyHash toyDoc [1] [] "doc.pdf"
     [2] (by decide) rfl,
   verify_error_handling.2.2.2 toyRSA toyHash c4NoSig [] "True" (by decide)
     (by decide) (by decide) (by decide)⟩

/-- C5: with distinct fresh randomness — the situation two successive
`os.urandom` draws produce with overwhelming probability — two encryptions
of the same key under the same PIN yield different blobs, and each blob
decrypts back to exactly the original key bytes under that PIN. -/
theorem encrypt_nondeterminism_decrypt_roundtrip (C : BlockCipher)
    (kdf : Kdf) (K : Bytes) (pin : String) (salt1 iv1 salt2 iv2 : Bytes)
    (hs1 : salt1.length = 16) (hiv1 : iv1.length = 16)
    (hs2 : salt2.length = 16) (hiv2 : iv2.length = 16)
    (hne : (salt1, iv1) ≠ (salt2, iv2)) :
    key_generator.encrypt_private_key C kdf K pin salt1 iv1
      ≠ key_generator.encrypt_private_key C kdf K pin salt2 iv2
    ∧ signature_app.decrypt_private_key C kdf
        (key_generator.encrypt_private_key C kdf K pin salt1 iv1) pin
        = .ok K
    ∧ signature_app.decrypt_private_key C kdf
        (key_generator.encrypt_private_key C kdf K pin salt2 iv2) pin
        = .ok K := by
  refine ⟨?_, decrypt_encrypt_eq C kdf K pin salt1 iv1 hs1 hiv1,
    decrypt_encrypt_eq C kdf K pin salt2 iv2 hs2 hiv2⟩
  intro heq
  rw [encrypt_eq_parts, encrypt_eq_parts, List.append_assoc,
    List.append_assoc] at heq
  obtain ⟨hsalt, hrest⟩ := List.append_inj heq (by rw [hs1, hs2])
  obtain ⟨hivq, _⟩ := List.append_inj hrest (by rw [hiv1, hiv2])
  exact hne (by rw [hsalt, hivq])

/-- C5 witness: distinct randomness and the two round trips, concretely. -/
theorem encrypt_nondeterminism_decrypt_roundtrip_witness :
    key_generator.encrypt_private_key xorCipher toyKdf [5] "123456"
        (List.replicate 16 0) (List.replicate 16 0)
      ≠ key_generator.encrypt_private_key xorCipher toyKdf [5] "123456"
        (List.replicate 16 1) (List.replicate 16 2)
    ∧ signature_app.decrypt_private_key xorCipher toyKdf
        (key_generator.encrypt_private_key xorCipher toyKdf [5] "123456"
          (List.replicate 16 0) (List.replicate 16 0)) "123456" = .ok [5]
    ∧ signature_app.decrypt_private_key xorCipher toyKdf
        (key_generator.encrypt_private_key xorCipher toyKdf [5] "123456"
          (List.replicate 16 1) (List.replicate 16 2)) "123456" = .ok [5] :=
  encrypt_nondeterminism_decrypt_roundtrip xorCipher toyKdf [5] "123456"
    (List.replicate 16 0) (List.replicate 16 0)
    (List.replicate 16 1) (List.replicate 16 2)
    (by decide) (by decide) (by decide) (by decide) (by decide)

/-- C6: the blob is exactly `salt(16) || iv(16) || ciphertext` with the
ciphertext a positive multiple of the 16-byte block size, and
`decrypt_private_key` reads only the three fixed-offset fields `[:16]`,
`[16:32]`, `[32:]` — any byte string with the same three slices decrypts
identically. -/
theorem encrypted_blob_layout (C : BlockCipher) (kdf : Kdf) (K : Bytes)
    (pin : String) (salt iv : Bytes) (hs : salt.length = 16)
    (hiv : iv.length = 16) :
    key_generator.encrypt_private_key C kdf K pin salt iv
      = salt ++ iv ++ blobCiphertext C kdf K pin salt iv
    ∧ (blobCiphertext C kdf K pin salt iv).length % 16 = 0
    ∧ 0 < (blobCiphertext C kdf K pin salt iv).length
    ∧ (key_generator.encrypt_private_key C kdf K pin salt iv).take 16 = salt
    ∧ ((key_generator.encrypt_private_key C kdf K pin salt iv).drop 16).take
        16 = iv
    ∧ (key_generator.encrypt_private_key C kdf K pin salt iv).drop 32
        = blobCiphertext C kdf K pin salt iv
    ∧ ∀ (pin2 : String) (blobAlt : Bytes),
        blobAlt.take 16 = salt → (blobAlt.drop 16).take 16 = iv →
        blobAlt.drop 32 = blobCiphertext C kdf K pin salt iv →
        signature_app.decrypt_private_key C kdf blobAlt pin2
          = signature_app.decrypt_private_key C kdf
              (key_generator.encrypt_private_key C kdf K pin salt iv) pin2
    := by
  obtain ⟨h1, h2, h3⟩ := blob_slices C kdf K pin salt iv hs hiv
  refine ⟨encrypt_eq_parts C kdf K pin salt iv, ?_, ?_, h1, h2, h3, ?_⟩
  · rw [blobCiphertext_length C kdf K pin salt iv hiv]
    omega
  · rw [blobCiphertext_length C kdf K pin salt iv hiv]
    omega
  · intro pin2 blobAlt hb1 hb2 hb3
    unfold signature_app.decrypt_private_key
    rw [hb1, hb2, hb3, h1, h2, h3]

/-- C6 witness: the layout facts evaluated at a concrete key and PIN. -/
theorem encrypted_blob_layout_witness :
    key_generator.encrypt_private_key xorCipher toyKdf [8] "123456"
        (List.replicate 16 3) (List.replicate 16 4)
      = List.replicate 16 3 ++ List.replicate 16 4
        ++ blobCiphertext xorCipher toyKdf [8] "123456"
            (List.replicate 16 3) (List.replicate 16 4)
    ∧ (blobCiphertext xorCipher toyKdf [8] "123456" (List.replicate 16 3)
        (List.replicate 16 4)).length % 16 = 0 :=
  ⟨(encrypted_blob_layout xorCipher toyKdf [8] "123456"
      (List.replicate 16 3) (List.replicate 16 4)
      (by decide) (by decide)).1,
   (encrypted_blob_layout xorCipher toyKdf [8] "123456"
      (List.replicate 16 3) (List.replicate 16 4)
      (by decide) (by decide)).2.1⟩

/-- C7 counterexample: across the snapshot sequence `[{A}], [{A,B}], [{B}]`,
when volume B carries no key blob the signature application's monitor emits
no connect event at all — a newly present volume does not yield a connect
event carrying (path, blob-bytes-or-absent). -/
theorem monitor_no_connect_without_blob :
    (signature_app.USBDetector.runCycles (fun _ => none) ["A"]
      [["A", "B"], ["B"]]).filter isConnEvent = [.usbDisconnected] := by
  decide

/-- C7 (amended): across `[{A}], [{A,B}], [{B}]` the monitors emit exactly
one connect for B followed by exactly one disconnect (which carries no
volume identity).  In the signature application the connect event carries
(path, blob bytes) and is emitted only because B holds a key blob; in the
key generator every new volume yields a connect carrying the path alone. -/
theorem monitor_diff_events (A B : String) (blob : Bytes)
    (fs : String → Option Bytes) (hAB : A ≠ B)
    (hfsB : fs (B ++ "/private_key.enc") = some blob) :
    (signature_app.USBDetector.runCycles fs [A] [[A, B], [B]]).filter
        isConnEvent = [.usbConnected B blob, .usbDisconnected]
    ∧ (key_generator.USBDetector.runCycles [A] [[A, B], [B]]).filter
        isKgConnEvent = [.usbConnected B, .usbDisconnected] := by
  have hAB' : (A == B) = false := beq_eq_false_iff_ne.mpr hAB
  have hBA' : (B == A) = false := beq_eq_false_iff_ne.mpr (Ne.symm hAB)
  have hd1 : decide (B = A) = false := decide_eq_false (Ne.symm hAB)
  have hd2 : decide (A = B) = false := decide_eq_false hAB
  constructor
  · simp [signature_app.USBDetector.runCycles,
      signature_app.USBDetector.stepCycle,
      signature_app.check_drive_for_key, hfsB, isConnEvent,
      List.contains, hAB', hBA', hd1, hd2, List.filter]
  · simp [key_generator.USBDetector.runCycles,
      key_generator.USBDetector.stepCycle, isKgConnEvent,
      List.contains, hAB', hBA', hd1, hd2, List.filter]

/-- C7 witness: the amended event trace at concrete volumes "A", "B". -/
theorem monitor_diff_events_witness :
    (signature_app.USBDetector.runCycles
        (fun p => if p = "B/private_key.enc" then some [1, 2] else none)
        ["A"] [["A", "B"], ["B"]]).filter isConnEvent
      = [.usbConnected "B" [1, 2], .usbDisconnected]
    ∧ (key_generator.USBDetector.runCycles ["A"] [["A", "B"], ["B"]]).filter
        isKgConnEvent = [.usbConnected "B", .usbDisconnected] :=
  monitor_diff_events "A" "B" [1, 2]
    (fun p => if p = "B/private_key.enc" then some [1, 2] else none)
    (by decide) (by decide)

/-- C8 counterexample: the PIN "12" violates the policy (fewer than six
digits), yet key derivation and the whole encrypt/decrypt cycle succeed —
no InvalidPinFormat failure exists anywhere in the key-custody layer. -/
theorem invalid_pin_accepted :
    validPinFormat "12" = false
    ∧ signature_app.decrypt_private_key xorCipher toyKdf
        (key_generator.encrypt_private_key xorCipher toyKdf [7] "12"
          (List.replicate 16 0) (List.replicate 16 0)) "12" = .ok [7] := by
  constructor <;> decide

/-- C8 (amended): neither implementation of `derive_key_from_pin` validates
the PIN: every PIN failing the GUI policy (minimum length six, digit-only)
still derives a fully working key, with which encryption and decryption
round-trip. -/
theorem derive_key_no_pin_validation (C : BlockCipher) (kdf : Kdf)
    (K : Bytes) (pin : String) (salt iv : Bytes)
    (_hbad : validPinFormat pin = false) (hs : salt.length = 16)
    (hiv : iv.length = 16) :
    signature_app.decrypt_private_key C kdf
      (key_generator.encrypt_private_key C kdf K pin salt iv) pin = .ok K :=
  decrypt_encrypt_eq C kdf K pin salt iv hs hiv

/-- C8 witness: the policy-violating PIN "ab" works end to end. -/
theorem derive_key_no_pin_validation_witness :
    signature_app.decrypt_private_key xorCipher toyKdf
      (key_generator.encrypt_private_key xorCipher toyKdf [3] "ab"
        (List.replicate 16 0) (List.replicate 16 0)) "ab" = .ok [3] :=
  derive_key_no_pin_validation xorCipher toyKdf [3] "ab"
    (List.replicate 16 0) (List.replicate 16 0)
    (by decide) (by decide) (by decide)

/-- C9: the key generator's and the signature application's
`derive_key_from_pin` agree: for the same PIN and salt both produce the
same PBKDF2-HMAC-SHA256 key with 100000 iterations and 32 output bytes (the
generator additionally returns the salt unchanged), so a blob encrypted by
the generator is decryptable by the signer under the same PIN. -/
theorem derive_key_implementations_agree (kdf : Kdf) (pin : String)
    (salt entropy : Bytes) :
    signature_app.derive_key_from_pin kdf pin salt
      = (key_generator.derive_key_from_pin kdf pin (some salt) entropy).1
    ∧ (key_generator.derive_key_from_pin kdf pin (some salt) entropy).2
        = salt :=
  ⟨rfl, rfl⟩

/-- C10: the padding removal of `decrypt_private_key` is unguarded: a
32-byte blob (salt and IV present, ciphertext empty) makes `padded_data[-1]`
raise an index error for every PIN and cipher, and whenever the decrypted
plaintext's last byte is 0 the function returns the empty byte string
(`padded_data[:-0] = b""`) instead of signalling an error. -/
theorem decrypt_padding_unguarded :
    (∀ (C : BlockCipher) (kdf : Kdf) (blob : Bytes) (pin : String),
      blob.length = 32 →
      signature_app.decrypt_private_key C kdf blob pin
        = .error .indexError)
    ∧ (∀ (C : BlockCipher) (kdf : Kdf) (blob : Bytes) (pin : String)
        (padded : Bytes),
      cbcDecrypt C (signature_app.derive_key_from_pin kdf pin (blob.take 16))
          ((blob.drop 16).take 16) (blob.drop 32) = padded →
      padded.getLast? = some 0 →
      signature_app.decrypt_private_key C kdf blob pin = .ok []) := by
  constructor
  · intro C kdf blob pin hlen
    have hd : List.drop 32 blob = [] := List.drop_eq_nil_of_le (by omega)
    simp only [signature_app.decrypt_private_key]
    rw [hd]
    rw [show cbcDecrypt C
        (signature_app.derive_key_from_pin kdf pin (blob.take 16))
        ((blob.drop 16).take 16) [] = [] from by
      unfold cbcDecrypt
      rw [toBlocks_nil]
      rfl]
    rfl
  · intro C kdf blob pin padded hpad hlast
    simp only [signature_app.decrypt_private_key]
    rw [hpad, hlast]
    rfl

/-- C10 witness: the empty-ciphertext index error and the zero-last-byte
empty result, evaluated at concrete blobs. -/
theorem decrypt_padding_unguarded_witness :
    signature_app.decrypt_private_key xorCipher toyKdf (List.replicate 32 0)
        "123456" = .error .indexError
    ∧ signature_app.decrypt_private_key xorCipher toyKdf c10Blob "123456"
        = .ok [] :=
  ⟨decrypt_padding_unguarded.1 xorCipher toyKdf (List.replicate 32 0)
      "123456" (by decide),
   decrypt_padding_unguarded.2 xorCipher toyKdf c10Blob "123456"
      (List.replicate 16 0) (by decide) (by decide)⟩
